import Mathlib

/-!
# Shallow embedding of `ecdo_analysis.data_loaders`

This file embeds the three loaders of `src/ecdo_analysis/data_loaders.py`
(`load_lod_data`, `load_aam_data`, `load_combined_data`) and proves the
specification claims about them.

Modelling conventions:

* A pandas cell value is `Option ℚ`: `none` models NaN (a missing value),
  `some q` a finite numeric value.  Arithmetic on cells follows pandas
  NaN-propagation (`NaN + x = NaN`, `NaN * 1000 = NaN`), and per-period
  aggregation follows pandas `mean` with its default `skipna=True`
  (`none` entries are dropped; a period whose cells are all missing or that
  has no rows at all aggregates to `none`).
* A timestamp is the calendar tuple (year, month, day, minute-of-day).
  `pd.to_datetime` failures (invalid month/day/time) are the parse-error
  path of the loaders, so text-level parsing that already happened in
  `pd.read_csv` is abstracted: a loader's input is the list of raw records
  of the file(s), holding exactly the columns the function consumes.
* The Python exceptions raised by the module are mirrored by `LoadError`:
  `FileNotFoundError`, `ValueError` and the parse failures raised by
  pandas / `to_datetime`.
* `resample(freq).mean()` is modelled for the two frequencies the module
  documents, `"MS"` (month start) and `"M"` (month end): rows are grouped
  by calendar month, the output has one row per calendar month from the
  first to the last month occurring in the input, labelled at the month
  start resp. month end.
* A directory is a list of (filename, parsed file content) pairs;
  `Path.glob` + `sorted` become a filter by the literal pattern
  `ESMGFZ_AAM_v1.0_03h_*.asc.csv` followed by a lexicographic sort.
-/

namespace EcdoAnalysis

/-- Errors raised by the loaders, mirroring the Python exception classes. -/
inductive LoadError where
  /-- Python `FileNotFoundError` (the spec's NotFoundError). -/
  | fileNotFound : LoadError
  /-- Python `ValueError`. -/
  | valueError : LoadError
  /-- A pandas / `to_datetime` parse failure. -/
  | parseError : LoadError
deriving DecidableEq

/-- A calendar timestamp: year, month, day, minute of day. -/
structure Timestamp where
  year : Int
  month : Int
  day : Int
  minuteOfDay : Int
deriving DecidableEq

/-- Linearisation of a timestamp used for chronological comparison.
On valid timestamps (month in 1..12, day in 1..31, minute in 0..1439) it
orders timestamps chronologically. -/
def tsKey (t : Timestamp) : Int :=
  ((t.year * 12 + (t.month - 1)) * 32 + t.day) * 1440 + t.minuteOfDay

/-- The calendar month of a timestamp, as a single integer. -/
def monthIdx (t : Timestamp) : Int :=
  t.year * 12 + (t.month - 1)

/-- Gregorian leap-year rule. -/
def isLeap (y : Int) : Bool :=
  (y % 4 == 0 && y % 100 != 0) || y % 400 == 0

/-- Number of days of month `m` of year `y`. -/
def daysInMonth (y m : Int) : Int :=
  if m == 2 then (if isLeap y then 29 else 28)
  else if m == 4 || m == 6 || m == 9 || m == 11 then 30
  else 31

/-- The two resampling frequencies the module documents: `"MS"`
(month start) and `"M"` (month end). -/
inductive Freq where
  | MS : Freq
  | M : Freq
deriving DecidableEq

/-- The index label of calendar month `m` under frequency `f`:
the first day of the month for `"MS"`, the last day for `"M"`. -/
def freqLabel (f : Freq) (m : Int) : Timestamp :=
  let y := m / 12
  let mo := m % 12 + 1
  match f with
  | .MS => ⟨y, mo, 1, 0⟩
  | .M => ⟨y, mo, daysInMonth y mo, 0⟩

/-- The consecutive months `lo, lo+1, …, hi`. -/
def monthsRange (lo hi : Int) : List Int :=
  (List.range (hi + 1 - lo).toNat).map (fun (k : Nat) => lo + (k : Int))

/-- pandas `mean` with `skipna=True` over a list of cells: missing cells are
dropped; if nothing remains the mean is itself missing. -/
def meanOpt (xs : List (Option ℚ)) : Option ℚ :=
  let vs := xs.filterMap id
  if vs.isEmpty then none else some (vs.sum / (vs.length : ℚ))

/-- Cell addition with pandas NaN propagation. -/
def optAdd (a b : Option ℚ) : Option ℚ :=
  match a, b with
  | some x, some y => some (x + y)
  | _, _ => none

/-- Cell scaling with pandas NaN propagation. -/
def optScale (c : ℚ) (a : Option ℚ) : Option ℚ :=
  a.map (fun v => v * c)

/-- `resample(freq)` followed by an aggregation `agg`: one output row per
calendar month between the first and the last month present in `rows`,
labelled by `freqLabel`, holding the aggregate of the rows of that month.
An empty input yields an empty output (as in pandas). -/
def resampleWith {α β : Type} (f : Freq) (ts : α → Timestamp)
    (agg : List α → β) (rows : List α) : List (Timestamp × β) :=
  match rows with
  | [] => []
  | r :: rs =>
    let lo := rs.foldl (fun a p => min a (monthIdx (ts p))) (monthIdx (ts r))
    let hi := rs.foldl (fun a p => max a (monthIdx (ts p))) (monthIdx (ts r))
    (monthsRange lo hi).map (fun m =>
      (freqLabel f m, agg ((r :: rs).filter (fun p => monthIdx (ts p) == m))))

/-- A raw record of the LOD file.  Of the 16 whitespace-delimited columns
(`Year Month Day MJD x y UT1-UTC LOD dX dY x_Err y_Err UT1-UTC_Err LOD_Err
dX_Err dY_Err`) only these four are consumed by `load_lod_data`; the other
twelve are parsed and then dropped by the column selection. -/
structure LodRaw where
  Year : Int
  Month : Int
  Day : Int
  LOD : Option ℚ
deriving DecidableEq

/-- A row of the LOD table after the datetime index and the derived
`LOD_ms` column have been built, before resampling. -/
structure LodPre where
  ts : Timestamp
  LOD_ms : Option ℚ
  LOD : Option ℚ
deriving DecidableEq

/-- A row of the resampled LOD table (columns `LOD_ms`, `LOD`). -/
structure LodAgg where
  LOD_ms : Option ℚ
  LOD : Option ℚ
deriving DecidableEq

/-- `pd.to_datetime` on a Year/Month/Day triple: succeeds exactly on valid
calendar dates. -/
def mkDate (y m d : Int) : Option Timestamp :=
  if 1 ≤ m ∧ m ≤ 12 ∧ 1 ≤ d ∧ d ≤ daysInMonth y m then some ⟨y, m, d, 0⟩
  else none

/-- The pre-aggregation stage of `load_lod_data`: build the datetime index
from Year/Month/Day and derive `LOD_ms = LOD * 1000`. -/
def lodParse : List LodRaw → Except LoadError (List LodPre)
  | [] => .ok []
  | r :: rest =>
    match mkDate r.Year r.Month r.Day with
    | none => .error .parseError
    | some t =>
      match lodParse rest with
      | .error e => .error e
      | .ok tail => .ok (⟨t, optScale 1000 r.LOD, r.LOD⟩ :: tail)

/-- The aggregation stage of `load_lod_data`:
`df[['LOD_ms', 'LOD']].resample(resample_freq).mean()`. -/
def lodResample (f : Freq) (pre : List LodPre) : List (Timestamp × LodAgg) :=
  resampleWith f (fun r => r.ts)
    (fun b => ⟨meanOpt (b.map (fun r => r.LOD_ms)), meanOpt (b.map (fun r => r.LOD))⟩) pre

/-- `load_lod_data(file_path, resample_freq)`, taking the parsed rows of the
file (everything after the 14 skipped header lines). -/
def load_lod_data (rows : List LodRaw) (resample_freq : Freq) :
    Except LoadError (List (Timestamp × LodAgg)) :=
  match lodParse rows with
  | .error e => .error e
  | .ok pre => .ok (lodResample resample_freq pre)

/-- A raw record of one AAM yearly file.  Of the semicolon-delimited
columns only `Year`, `Month`, `Day`, `Time`, `Mass_Z` and `Motion_Z` are
consumed; the `Time` time-of-day string is modelled already parsed, as
minutes since midnight. -/
structure AamRaw where
  Year : Int
  Month : Int
  Day : Int
  minuteOfDay : Int
  Mass_Z : Option ℚ
  Motion_Z : Option ℚ
deriving DecidableEq

/-- An AAM row after its datetime index is built. -/
structure AamParsed where
  ts : Timestamp
  Mass_Z : Option ℚ
  Motion_Z : Option ℚ
deriving DecidableEq

/-- An AAM row of the concatenated table after the derived column
`X3_atm = Mass_Z + Motion_Z` is added, before resampling. -/
structure AamPre where
  ts : Timestamp
  Mass_Z : Option ℚ
  Motion_Z : Option ℚ
  X3_atm : Option ℚ
deriving DecidableEq

/-- A row of the resampled AAM table (columns `Mass_Z`, `Motion_Z`,
`X3_atm`). -/
structure AamAgg where
  Mass_Z : Option ℚ
  Motion_Z : Option ℚ
  X3_atm : Option ℚ
deriving DecidableEq

/-- A directory: filenames with the parsed content of each file. -/
abbrev AamDir := List (String × List AamRaw)

/-- Lexicographic comparison of character sequences by code point, as
Python compares strings. -/
def charListLt : List Char → List Char → Bool
  | [], [] => false
  | [], _ :: _ => true
  | _ :: _, [] => false
  | a :: as, b :: bs =>
    if a.val < b.val then true
    else if b.val < a.val then false
    else charListLt as bs

/-- Non-strict version of `charListLt`. -/
def charListLe (a b : List Char) : Bool :=
  !(charListLt b a)

/-- Insert `x` into a `le`-sorted list, before the first element it is
`le`-related to (a stable insertion, matching Python's stable sorts). -/
def orderedInsert {α : Type} (le : α → α → Bool) (x : α) : List α → List α
  | [] => [x]
  | y :: ys => if le x y then x :: y :: ys else y :: orderedInsert le x ys

/-- Stable insertion sort, modelling Python `sorted` / pandas `sort_index`
(both stable sorts). -/
def insertionSort {α : Type} (le : α → α → Bool) : List α → List α
  | [] => []
  | x :: xs => orderedInsert le x (insertionSort le xs)

/-- `str.split(sep)` for a one-character separator: split at every
occurrence, keeping empty pieces (as Python does for an explicit `sep`). -/
def splitChar (c : Char) : List Char → List (List Char)
  | [] => [[]]
  | x :: xs =>
    if x = c then [] :: splitChar c xs
    else
      match splitChar c xs with
      | [] => [[x]]
      | h :: t => (x :: h) :: t

/-- Re-join pieces with a dot separator (`'.'.join`). -/
def joinDots : List (List Char) → List Char
  | [] => []
  | [x] => x
  | x :: y :: t => x ++ ('.') :: joinDots (y :: t)

/-- `pathlib.PurePath.stem` on a filename: drop the last suffix.  A suffix
exists when the last dot is neither the first nor the last character. -/
def stemChars (l : List Char) : List Char :=
  let parts := splitChar ('.') l
  if 2 ≤ parts.length ∧ ¬(parts.length = 2 ∧ parts.headD [] = []) ∧
      parts.getLastD [] ≠ [] then
    joinDots parts.dropLast
  else l

/-- `pathlib.PurePath.stem`, on the filename string. -/
def stem (s : String) : String :=
  ⟨stemChars s.data⟩

/-- Whether a filename matches the glob `ESMGFZ_AAM_v1.0_03h_*.asc.csv`
(`*` matches any, possibly empty, character sequence). -/
def globMatch (name : String) : Bool :=
  (("ESMGFZ_AAM_v1.0_03h_").data).isPrefixOf name.data &&
    ((".asc.csv").data).isSuffixOf name.data && decide (28 ≤ name.data.length)

/-- Digit-sequence value accumulator for `int(...)`. -/
def digitsValAux (acc : Nat) : List Char → Option Nat
  | [] => some acc
  | c :: cs =>
    if c.isDigit then digitsValAux (acc * 10 + (c.toNat - 48)) cs else none

/-- Python `int(str)` on a token: an optional minus sign followed by one or
more decimal digits; anything else raises `ValueError`, modelled as `none`. -/
def parseIntChars : List Char → Option Int
  | [] => none
  | c :: cs =>
    if c = ('-') then
      match cs with
      | [] => none
      | _ :: _ => (digitsValAux 0 cs).map (fun n => -(n : Int))
    else (digitsValAux 0 (c :: cs)).map (fun n => (n : Int))

/-- `int(f.stem.split('_')[-1].split('.')[0])`: the year token embedded in
an AAM filename; `none` models the `ValueError` that `int` raises on a
non-numeric token. -/
def extractYear (name : String) : Option Int :=
  parseIntChars ((splitChar ('.') ((splitChar ('_') (stem name).data).getLastD [])).headD [])

/-- The year-range test of the filtering loop: a file of year `y` is kept
unless `y < start_year` or `end_year < y` (absent bounds do not filter). -/
def yearKeep (start_year end_year : Option Int) (y : Int) : Bool :=
  (match start_year with | none => true | some s => decide (s ≤ y)) &&
    (match end_year with | none => true | some e => decide (y ≤ e))

/-- The year-filtering loop of `load_aam_data`: extract each filename's year
(raising `ValueError` where `int` fails) and keep the files passing
`yearKeep`. -/
def filterByYear (start_year end_year : Option Int) :
    List (String × List AamRaw) → Except LoadError (List (String × List AamRaw))
  | [] => .ok []
  | f :: fs =>
    match extractYear f.1 with
    | none => .error .valueError
    | some y =>
      match filterByYear start_year end_year fs with
      | .error e => .error e
      | .ok rest => .ok (if yearKeep start_year end_year y then f :: rest else rest)

/-- `sorted(data_path.glob("ESMGFZ_AAM_v1.0_03h_*.asc.csv"))`: the matching
files in lexicographic filename order. -/
def aamMatched (dir : AamDir) : AamDir :=
  insertionSort (fun a b => charListLe a.1.data b.1.data) (dir.filter (fun f => globMatch f.1))

/-- `pd.to_datetime` on the concatenated `Year-Month-Day Time` string:
succeeds exactly on a valid calendar date with a valid time of day. -/
def mkDateTime (y m d mins : Int) : Option Timestamp :=
  if 1 ≤ m ∧ m ≤ 12 ∧ 1 ≤ d ∧ d ≤ daysInMonth y m ∧ 0 ≤ mins ∧ mins < 1440 then
    some ⟨y, m, d, mins⟩
  else none

/-- Per-file parsing of `load_aam_data`: build each row's datetime index. -/
def aamParseFile : List AamRaw → Except LoadError (List AamParsed)
  | [] => .ok []
  | r :: rest =>
    match mkDateTime r.Year r.Month r.Day r.minuteOfDay with
    | none => .error .parseError
    | some t =>
      match aamParseFile rest with
      | .error e => .error e
      | .ok tail => .ok (⟨t, r.Mass_Z, r.Motion_Z⟩ :: tail)

/-- The per-file loading loop of `load_aam_data`: parse each kept file in
order, stopping at the first failure. -/
def aamParseAll : List (String × List AamRaw) → Except LoadError (List (List AamParsed))
  | [] => .ok []
  | f :: fs =>
    match aamParseFile f.2 with
    | .error e => .error e
    | .ok d =>
      match aamParseAll fs with
      | .error e => .error e
      | .ok ds => .ok (d :: ds)

/-- Discovery, filtering, per-file parsing, concatenation, `sort_index` and
the derivation `X3_atm = Mass_Z + Motion_Z`: everything `load_aam_data`
does before resampling, producing the pre-aggregation table `df_all`. -/
def aamConcat (dir : AamDir) (start_year end_year : Option Int) :
    Except LoadError (List AamPre) :=
  let matched := aamMatched dir
  if matched.isEmpty then .error .fileNotFound
  else
    match (if start_year.isSome || end_year.isSome then
        filterByYear start_year end_year matched
      else .ok matched) with
    | .error e => .error e
    | .ok kept =>
      if kept.isEmpty then .error .valueError
      else
        match aamParseAll kept with
        | .error e => .error e
        | .ok dfs =>
          let df_all := insertionSort (fun a b => decide (tsKey a.ts ≤ tsKey b.ts)) dfs.flatten
          .ok (df_all.map (fun r => ⟨r.ts, r.Mass_Z, r.Motion_Z, optAdd r.Mass_Z r.Motion_Z⟩))

/-- The aggregation stage of `load_aam_data`:
`df_all[['Mass_Z', 'Motion_Z', 'X3_atm']].resample(resample_freq).mean()`. -/
def aamResample (f : Freq) (pre : List AamPre) : List (Timestamp × AamAgg) :=
  resampleWith f (fun r => r.ts)
    (fun b => ⟨meanOpt (b.map (fun r => r.Mass_Z)), meanOpt (b.map (fun r => r.Motion_Z)),
      meanOpt (b.map (fun r => r.X3_atm))⟩) pre

/-- `load_aam_data(data_dir, start_year, end_year, resample_freq)`, taking
the directory listing with each file's parsed rows. -/
def load_aam_data (dir : AamDir) (start_year end_year : Option Int)
    (resample_freq : Freq) : Except LoadError (List (Timestamp × AamAgg)) :=
  match aamConcat dir start_year end_year with
  | .error e => .error e
  | .ok pre => .ok (aamResample resample_freq pre)

/-- `df_lod.join(df_aam, how='inner')` on unique indices: for each LOD row,
in order, keep it iff its timestamp also occurs in the AAM table, pairing
the two rows' columns. -/
def innerJoin (l : List (Timestamp × LodAgg)) (a : List (Timestamp × AamAgg)) :
    List (Timestamp × LodAgg × AamAgg) :=
  l.filterMap (fun p => (a.find? (fun q => q.1 == p.1)).map (fun q => (p.1, p.2, q.2)))

/-- `load_combined_data(lod_file, aam_dir, start_year, end_year,
resample_freq)`. -/
def load_combined_data (lod_rows : List LodRaw) (aam_dir : AamDir)
    (start_year end_year : Option Int) (resample_freq : Freq) :
    Except LoadError (List (Timestamp × LodAgg × AamAgg)) :=
  match load_lod_data lod_rows resample_freq with
  | .error e => .error e
  | .ok df_lod =>
    match load_aam_data aam_dir start_year end_year resample_freq with
    | .error e => .error e
    | .ok df_aam => .ok (innerJoin df_lod df_aam)

/-- Input of the LOD concrete scenario: three daily rows of January 2000
with LOD values 0.0010 s, 0.0012 s, 0.0008 s. -/
def wLod : List LodRaw :=
  [⟨2000, 1, 1, some (1/1000)⟩, ⟨2000, 1, 2, some (12/10000)⟩,
    ⟨2000, 1, 3, some (8/10000)⟩]

/-- The pre-aggregation table `load_lod_data` builds from `wLod`. -/
def wLodPre : List LodPre :=
  [⟨⟨2000, 1, 1, 0⟩, some 1, some (1/1000)⟩,
    ⟨⟨2000, 1, 2, 0⟩, some (6/5), some (12/10000)⟩,
    ⟨⟨2000, 1, 3, 0⟩, some (4/5), some (8/10000)⟩]

/-- The monthly table `load_lod_data` returns on `wLod`. -/
def wLodTbl : List (Timestamp × LodAgg) :=
  [(⟨2000, 1, 1, 0⟩, ⟨some 1, some (1/1000)⟩)]

/-- A sample LOD input with a gap: daily rows in January and March 2000 but
none in February. -/
def wLodGap : List LodRaw :=
  [⟨2000, 1, 1, some (1/1000)⟩, ⟨2000, 3, 1, some (3/1000)⟩]

/-- The pre-aggregation table `load_lod_data` builds from `wLodGap`. -/
def wLodGapPre : List LodPre :=
  [⟨⟨2000, 1, 1, 0⟩, some 1, some (1/1000)⟩, ⟨⟨2000, 3, 1, 0⟩, some 3, some (3/1000)⟩]

/-- The monthly table `load_lod_data` returns on `wLodGap`: February 2000 is
an empty period. -/
def wLodGapTbl : List (Timestamp × LodAgg) :=
  [(⟨2000, 1, 1, 0⟩, ⟨some 1, some (1/1000)⟩),
    (⟨2000, 2, 1, 0⟩, ⟨none, none⟩),
    (⟨2000, 3, 1, 0⟩, ⟨some 3, some (3/1000)⟩)]

/-- A sample yearly AAM file for 2000, with sub-daily data in January and
March but none in February. -/
def wFileA : String × List AamRaw :=
  (("ESMGFZ_AAM_v1.0_03h_2000.asc.csv"),
    [⟨2000, 1, 1, 0, some 1, some 2⟩, ⟨2000, 3, 1, 180, some 3, some 5⟩])

/-- A sample yearly AAM file for 2001. -/
def wFileB : String × List AamRaw :=
  (("ESMGFZ_AAM_v1.0_03h_2001.asc.csv"), [⟨2001, 1, 1, 0, some 4, some 6⟩])

/-- A sample directory holding the two matching yearly AAM files. -/
def wDir : AamDir := [wFileA, wFileB]

/-- The file list kept when `wDir` is filtered to the year 2000. -/
def wKept : AamDir := [wFileA]

/-- The pre-aggregation table `load_aam_data` builds from `wDir` when the
year range is restricted to 2000. -/
def wAamPre : List AamPre :=
  [⟨⟨2000, 1, 1, 0⟩, some 1, some 2, some 3⟩,
    ⟨⟨2000, 3, 1, 180⟩, some 3, some 5, some 8⟩]

/-- The monthly table `load_aam_data` returns on `wDir` restricted to the
year 2000: January and March carry data, February is an empty period. -/
def wAamTbl : List (Timestamp × AamAgg) :=
  [(⟨2000, 1, 1, 0⟩, ⟨some 1, some 2, some 3⟩),
    (⟨2000, 2, 1, 0⟩, ⟨none, none, none⟩),
    (⟨2000, 3, 1, 0⟩, ⟨some 3, some 5, some 8⟩)]

/-- The combined table for `wLod` and `wDir` restricted to the year 2000:
only January 2000 occurs in both monthly tables. -/
def wCombTbl : List (Timestamp × LodAgg × AamAgg) :=
  [(⟨2000, 1, 1, 0⟩, ⟨some 1, some (1/1000)⟩, ⟨some 1, some 2, some 3⟩)]

/-- A directory with no file matching the AAM filename pattern. -/
def wBadDir : AamDir := [(("notes.txt"), [])]

/-- The first row of `wLodPre`. -/
def wLodPreHead : LodPre := ⟨⟨2000, 1, 1, 0⟩, some 1, some (1/1000)⟩

/-- The first row of `wAamPre`. -/
def wAamPreHead : AamPre := ⟨⟨2000, 1, 1, 0⟩, some 1, some 2, some 3⟩

/-- The first row of `wAamTbl`. -/
def wAamTblHead : Timestamp × AamAgg := (⟨2000, 1, 1, 0⟩, ⟨some 1, some 2, some 3⟩)

/-- The single row of `wCombTbl`. -/
def wCombHead : Timestamp × LodAgg × AamAgg :=
  (⟨2000, 1, 1, 0⟩, ⟨some 1, some (1/1000)⟩, ⟨some 1, some 2, some 3⟩)

theorem daysInMonth_pos (y m : Int) : 1 ≤ daysInMonth y m := by
  unfold daysInMonth
  split_ifs <;> norm_num

theorem daysInMonth_le (y m : Int) : daysInMonth y m ≤ 31 := by
  unfold daysInMonth
  split_ifs <;> norm_num

theorem monthIdx_freqLabel (f : Freq) (m : Int) : monthIdx (freqLabel f m) = m := by
  cases f <;> simp only [monthIdx, freqLabel] <;> omega

theorem freqLabel_day_ge (f : Freq) (m : Int) : 1 ≤ (freqLabel f m).day := by
  cases f
  · norm_num [freqLabel]
  · exact daysInMonth_pos _ _

theorem freqLabel_day_le (f : Freq) (m : Int) : (freqLabel f m).day ≤ 31 := by
  cases f
  · norm_num [freqLabel]
  · exact daysInMonth_le _ _

theorem freqLabel_minute (f : Freq) (m : Int) : (freqLabel f m).minuteOfDay = 0 := by
  cases f <;> rfl

theorem tsKey_eq_monthIdx (t : Timestamp) :
    tsKey t = (monthIdx t * 32 + t.day) * 1440 + t.minuteOfDay := by
  unfold tsKey monthIdx
  ring

theorem tsKey_freqLabel_lt {f : Freq} {m m' : Int} (h : m < m') :
    tsKey (freqLabel f m) < tsKey (freqLabel f m') := by
  rw [tsKey_eq_monthIdx, tsKey_eq_monthIdx, monthIdx_freqLabel, monthIdx_freqLabel,
    freqLabel_minute, freqLabel_minute]
  have h1 := freqLabel_day_ge f m
  have h2 := freqLabel_day_le f m
  have h3 := freqLabel_day_ge f m'
  have h4 := freqLabel_day_le f m'
  omega

theorem monthsRange_pairwise (lo hi : Int) : (monthsRange lo hi).Pairwise (· < ·) := by
  unfold monthsRange
  refine List.pairwise_map.mpr ?_
  refine (List.pairwise_lt_range _).imp ?_
  intro a b h
  show lo + (a : Int) < lo + (b : Int)
  omega

theorem mem_monthsRange {lo hi m : Int} : m ∈ monthsRange lo hi ↔ lo ≤ m ∧ m ≤ hi := by
  unfold monthsRange
  constructor
  · intro hm
    rcases List.mem_map.mp hm with ⟨k, hk, hf⟩
    rw [List.mem_range] at hk
    have hf2 : lo + (k : Int) = m := hf
    omega
  · intro h
    refine List.mem_map.mpr ⟨(m - lo).toNat, ?_, ?_⟩
    · rw [List.mem_range]
      omega
    · show lo + (((m - lo).toNat : Nat) : Int) = m
      omega

theorem foldl_min_le_self (a : Int) (l : List Int) : l.foldl min a ≤ a := by
  induction l generalizing a with
  | nil => exact le_refl a
  | cons b bs ih => exact le_trans (ih (min a b)) (min_le_left a b)

theorem foldl_min_le_mem {x : Int} {l : List Int} (a : Int) (hx : x ∈ l) :
    l.foldl min a ≤ x := by
  induction l generalizing a with
  | nil => cases hx
  | cons b bs ih =>
    rcases List.mem_cons.mp hx with rfl | hx2
    · exact le_trans (foldl_min_le_self (min a x) bs) (min_le_right a x)
    · exact ih (min a b) hx2

theorem le_foldl_max_self (a : Int) (l : List Int) : a ≤ l.foldl max a := by
  induction l generalizing a with
  | nil => exact le_refl a
  | cons b bs ih => exact le_trans (le_max_left a b) (ih (max a b))

theorem le_foldl_max_mem {x : Int} {l : List Int} (a : Int) (hx : x ∈ l) :
    x ≤ l.foldl max a := by
  induction l generalizing a with
  | nil => cases hx
  | cons b bs ih =>
    rcases List.mem_cons.mp hx with rfl | hx2
    · exact le_trans (le_max_right a x) (le_foldl_max_self (max a x) bs)
    · exact ih (max a b) hx2

theorem resampleWith_pairwise {α β : Type} (f : Freq) (ts : α → Timestamp)
    (agg : List α → β) (rows : List α) :
    ((resampleWith f ts agg rows).map Prod.fst).Pairwise (fun s t => tsKey s < tsKey t) := by
  cases rows with
  | nil => simp [resampleWith]
  | cons r rs =>
    simp only [resampleWith, List.map_map]
    refine List.pairwise_map.mpr ?_
    exact (monthsRange_pairwise _ _).imp (fun h => tsKey_freqLabel_lt h)

theorem mem_resampleWith {α β : Type} {f : Freq} {ts : α → Timestamp}
    {agg : List α → β} {rows : List α} {m : Int}
    (h1 : ∃ r ∈ rows, monthIdx (ts r) ≤ m) (h2 : ∃ r ∈ rows, m ≤ monthIdx (ts r)) :
    (freqLabel f m, agg (rows.filter (fun x => monthIdx (ts x) == m))) ∈
      resampleWith f ts agg rows := by
  cases rows with
  | nil =>
    rcases h1 with ⟨r, hr, _⟩
    cases hr
  | cons r rs =>
    simp only [resampleWith]
    refine List.mem_map.mpr ⟨m, mem_monthsRange.mpr ⟨?_, ?_⟩, rfl⟩
    · rcases h1 with ⟨r1, hr1, hle⟩
      refine le_trans ?_ hle
      rcases List.mem_cons.mp hr1 with rfl | hr2
      · rw [← List.foldl_map (fun p => monthIdx (ts p)) min]
        exact foldl_min_le_self _ _
      · rw [← List.foldl_map (fun p => monthIdx (ts p)) min]
        exact foldl_min_le_mem _ (List.mem_map.mpr ⟨r1, hr2, rfl⟩)
    · rcases h2 with ⟨r2, hr2, hle⟩
      refine le_trans hle ?_
      rcases List.mem_cons.mp hr2 with rfl | hr3
      · rw [← List.foldl_map (fun p => monthIdx (ts p)) max]
        exact le_foldl_max_self _ _
      · rw [← List.foldl_map (fun p => monthIdx (ts p)) max]
        exact le_foldl_max_mem _ (List.mem_map.mpr ⟨r2, hr3, rfl⟩)

theorem resampleWith_mem_elim {α β : Type} {f : Freq} {ts : α → Timestamp}
    {agg : List α → β} {rows : List α} {p : Timestamp × β}
    (hp : p ∈ resampleWith f ts agg rows) :
    ∃ m : Int, p.1 = freqLabel f m ∧
      p.2 = agg (rows.filter (fun x => monthIdx (ts x) == m)) := by
  cases rows with
  | nil => cases hp
  | cons r rs =>
    simp only [resampleWith] at hp
    rcases List.mem_map.mp hp with ⟨m, _, heq⟩
    exact ⟨m, by rw [← heq], by rw [← heq]⟩

theorem mem_orderedInsert {α : Type} {le : α → α → Bool} {x a : α} {l : List α} :
    a ∈ orderedInsert le x l ↔ a = x ∨ a ∈ l := by
  induction l with
  | nil => simp [orderedInsert]
  | cons y ys ih =>
    unfold orderedInsert
    by_cases h : le x y = true
    · rw [if_pos h]
      simp [List.mem_cons]
    · rw [if_neg h]
      simp only [List.mem_cons, ih]
      tauto

theorem mem_insertionSort {α : Type} {le : α → α → Bool} {a : α} {l : List α} :
    a ∈ insertionSort le l ↔ a ∈ l := by
  induction l with
  | nil => simp [insertionSort]
  | cons x xs ih => simp [insertionSort, mem_orderedInsert, ih, List.mem_cons]

theorem pairwise_key_nodup {l : List Timestamp}
    (h : l.Pairwise (fun s t => tsKey s < tsKey t)) : l.Nodup :=
  h.imp (fun hab he => absurd (he ▸ hab) (lt_irrefl _))

theorem load_lod_data_ok {rows : List LodRaw} {freq : Freq}
    {tbl : List (Timestamp × LodAgg)} (h : load_lod_data rows freq = .ok tbl) :
    ∃ pre, lodParse rows = .ok pre ∧ tbl = lodResample freq pre := by
  unfold load_lod_data at h
  cases hp : lodParse rows with
  | error e => rw [hp] at h; exact Except.noConfusion h
  | ok pre =>
    rw [hp] at h
    injection h with h
    exact ⟨pre, rfl, h.symm⟩

theorem load_aam_data_ok {dir : AamDir} {sy ey : Option Int} {freq : Freq}
    {tbl : List (Timestamp × AamAgg)} (h : load_aam_data dir sy ey freq = .ok tbl) :
    ∃ pre, aamConcat dir sy ey = .ok pre ∧ tbl = aamResample freq pre := by
  unfold load_aam_data at h
  cases hp : aamConcat dir sy ey with
  | error e => rw [hp] at h; exact Except.noConfusion h
  | ok pre =>
    rw [hp] at h
    injection h with h
    exact ⟨pre, rfl, h.symm⟩

theorem aamConcat_ok {dir : AamDir} {sy ey : Option Int} {pre : List AamPre}
    (h : aamConcat dir sy ey = .ok pre) :
    ∃ kept dfs, (aamMatched dir).isEmpty = false ∧
      (if sy.isSome || ey.isSome then filterByYear sy ey (aamMatched dir)
        else .ok (aamMatched dir)) = .ok kept ∧
      kept.isEmpty = false ∧ aamParseAll kept = .ok dfs ∧
      pre = (insertionSort (fun a b => decide (tsKey a.ts ≤ tsKey b.ts)) dfs.flatten).map
        (fun r => ⟨r.ts, r.Mass_Z, r.Motion_Z, optAdd r.Mass_Z r.Motion_Z⟩) := by
  simp only [aamConcat] at h
  by_cases h1 : List.isEmpty (aamMatched dir) = true
  · rw [if_pos h1] at h
    exact Except.noConfusion h
  · rw [if_neg h1] at h
    cases hF : (if (sy.isSome || ey.isSome) = true then filterByYear sy ey (aamMatched dir)
        else Except.ok (aamMatched dir)) with
    | error e =>
      rw [hF] at h
      exact Except.noConfusion h
    | ok kept =>
      simp only [hF] at h
      by_cases h2 : kept.isEmpty = true
      · rw [if_pos h2] at h
        exact Except.noConfusion h
      · rw [if_neg h2] at h
        cases hP : aamParseAll kept with
        | error e =>
          simp only [hP] at h
          exact Except.noConfusion h
        | ok dfs =>
          simp only [hP] at h
          injection h with h
          exact ⟨kept, dfs, Bool.eq_false_iff.mpr h1, rfl, Bool.eq_false_iff.mpr h2, hP, h.symm⟩

theorem aamConcat_x3 {dir : AamDir} {sy ey : Option Int} {pre : List AamPre}
    (h : aamConcat dir sy ey = .ok pre) :
    ∀ r ∈ pre, r.X3_atm = optAdd r.Mass_Z r.Motion_Z := by
  obtain ⟨kept, dfs, _, _, _, _, hpre⟩ := aamConcat_ok h
  subst hpre
  intro r hr
  rcases List.mem_map.mp hr with ⟨q, _, rfl⟩
  rfl

theorem lodParse_lodms {rows : List LodRaw} {pre : List LodPre}
    (h : lodParse rows = .ok pre) : ∀ r ∈ pre, r.LOD_ms = optScale 1000 r.LOD := by
  induction rows generalizing pre with
  | nil =>
    unfold lodParse at h
    injection h with h
    subst h
    intro r hr
    cases hr
  | cons a rest ih =>
    unfold lodParse at h
    split at h
    · exact Except.noConfusion h
    next t ht =>
      split at h
      · exact Except.noConfusion h
      next tail htail =>
        injection h with h
        subst h
        intro r hr
        rcases List.mem_cons.mp hr with rfl | hr2
        · rfl
        · exact ih htail r hr2

theorem mkDate_some {y m d : Int} {t : Timestamp} (h : mkDate y m d = some t) :
    t = ⟨y, m, d, 0⟩ := by
  unfold mkDate at h
  split at h
  · injection h with h
    exact h.symm
  · exact Option.noConfusion h

theorem mkDateTime_some {y m d mins : Int} {t : Timestamp}
    (h : mkDateTime y m d mins = some t) : t = ⟨y, m, d, mins⟩ := by
  unfold mkDateTime at h
  split at h
  · injection h with h
    exact h.symm
  · exact Option.noConfusion h

theorem aamParseFile_mem {rows : List AamRaw} {out : List AamParsed}
    (h : aamParseFile rows = .ok out) :
    ∀ q ∈ out, ∃ raw ∈ rows, q.ts = ⟨raw.Year, raw.Month, raw.Day, raw.minuteOfDay⟩ ∧
      q.Mass_Z = raw.Mass_Z ∧ q.Motion_Z = raw.Motion_Z := by
  induction rows generalizing out with
  | nil =>
    unfold aamParseFile at h
    injection h with h
    subst h
    intro q hq
    cases hq
  | cons a rest ih =>
    unfold aamParseFile at h
    split at h
    · exact Except.noConfusion h
    next t ht =>
      split at h
      · exact Except.noConfusion h
      next tail htail =>
        injection h with h
        subst h
        intro q hq
        rcases List.mem_cons.mp hq with rfl | hq2
        · exact ⟨a, List.mem_cons_self a rest, mkDateTime_some ht, rfl, rfl⟩
        · rcases ih htail q hq2 with ⟨raw, hraw, hq3⟩
          exact ⟨raw, List.mem_cons_of_mem a hraw, hq3⟩

theorem aamParseAll_mem {files : List (String × List AamRaw)}
    {dfs : List (List AamParsed)} (h : aamParseAll files = .ok dfs) :
    ∀ d ∈ dfs, ∃ f ∈ files, aamParseFile f.2 = .ok d := by
  induction files generalizing dfs with
  | nil =>
    unfold aamParseAll at h
    injection h with h
    subst h
    intro d hd
    cases hd
  | cons g gs ih =>
    unfold aamParseAll at h
    split at h
    · exact Except.noConfusion h
    next d0 hd0 =>
      split at h
      · exact Except.noConfusion h
      next ds hds =>
        injection h with h
        subst h
        intro d hd
        rcases List.mem_cons.mp hd with rfl | hd2
        · exact ⟨g, List.mem_cons_self g gs, hd0⟩
        · rcases ih hds d hd2 with ⟨f, hf, hf2⟩
          exact ⟨f, List.mem_cons_of_mem g hf, hf2⟩

theorem mem_aamMatched {dir : AamDir} {f : String × List AamRaw} :
    f ∈ aamMatched dir ↔ f ∈ dir ∧ globMatch f.1 = true := by
  unfold aamMatched
  rw [mem_insertionSort]
  exact List.mem_filter

theorem filterByYear_ok_mem {sy ey : Option Int} {files kept : List (String × List AamRaw)}
    (h : filterByYear sy ey files = .ok kept) :
    ∀ f, f ∈ kept ↔ f ∈ files ∧ ∃ y, extractYear f.1 = some y ∧ yearKeep sy ey y = true := by
  induction files generalizing kept with
  | nil =>
    unfold filterByYear at h
    injection h with h
    subst h
    simp
  | cons g gs ih =>
    unfold filterByYear at h
    split at h
    · exact Except.noConfusion h
    next y hy =>
      split at h
      · exact Except.noConfusion h
      next rest hrest =>
        injection h with h
        subst h
        intro f
        by_cases hk : yearKeep sy ey y = true
        · rw [if_pos hk]
          constructor
          · intro hf
            rcases List.mem_cons.mp hf with rfl | hf2
            · exact ⟨List.mem_cons_self f gs, y, hy, hk⟩
            · rcases (ih hrest f).mp hf2 with ⟨hfg, hex⟩
              exact ⟨List.mem_cons_of_mem g hfg, hex⟩
          · rintro ⟨hfg, y2, hy2, hk2⟩
            rcases List.mem_cons.mp hfg with rfl | hf2
            · exact List.mem_cons_self f rest
            · exact List.mem_cons_of_mem g ((ih hrest f).mpr ⟨hf2, y2, hy2, hk2⟩)
        · rw [if_neg hk]
          constructor
          · intro hf
            rcases (ih hrest f).mp hf with ⟨hfg, hex⟩
            exact ⟨List.mem_cons_of_mem g hfg, hex⟩
          · rintro ⟨hfg, y2, hy2, hk2⟩
            rcases List.mem_cons.mp hfg with rfl | hf2
            · rw [hy] at hy2
              injection hy2 with hy2
              subst hy2
              exact absurd hk2 hk
            · exact (ih hrest f).mpr ⟨hf2, y2, hy2, hk2⟩

theorem filterByYear_dropAll {sy ey : Option Int} {files : List (String × List AamRaw)}
    (h : ∀ f ∈ files, ∃ y, extractYear f.1 = some y ∧ yearKeep sy ey y = false) :
    filterByYear sy ey files = .ok [] := by
  induction files with
  | nil => rfl
  | cons g gs ih =>
    rcases h g (List.mem_cons_self g gs) with ⟨y, hy, hk⟩
    unfold filterByYear
    rw [hy, ih (fun f hf => h f (List.mem_cons_of_mem g hf))]
    simp [hk]

theorem yearKeep_iff {sy ey : Option Int} {y : Int} :
    yearKeep sy ey y = true ↔
      (∀ s, sy = some s → s ≤ y) ∧ (∀ e, ey = some e → y ≤ e) := by
  cases sy <;> cases ey <;> simp [yearKeep]

theorem innerJoin_mem_fst {l : List (Timestamp × LodAgg)} {a : List (Timestamp × AamAgg)}
    {t : Timestamp} :
    t ∈ (innerJoin l a).map Prod.fst ↔ t ∈ l.map Prod.fst ∧ t ∈ a.map Prod.fst := by
  constructor
  · intro ht
    rcases List.mem_map.mp ht with ⟨p, hp, rfl⟩
    rcases List.mem_filterMap.mp hp with ⟨q1, hq1, hg⟩
    rcases Option.map_eq_some'.mp hg with ⟨q2, hq2, hq2p⟩
    have hq2a := List.mem_of_find?_eq_some hq2
    have hq2t : q2.1 = q1.1 := by
      have := List.find?_some hq2
      exact beq_iff_eq.mp this
    constructor
    · rw [← hq2p]
      exact List.mem_map.mpr ⟨q1, hq1, rfl⟩
    · rw [← hq2p]
      exact List.mem_map.mpr ⟨q2, hq2a, hq2t⟩
  · rintro ⟨ht1, ht2⟩
    rcases List.mem_map.mp ht1 with ⟨q1, hq1, rfl⟩
    rcases List.mem_map.mp ht2 with ⟨q2, hq2, hq2t⟩
    have hs : (a.find? (fun q => q.1 == q1.1)).isSome :=
      List.find?_isSome.mpr ⟨q2, hq2, beq_iff_eq.mpr hq2t⟩
    obtain ⟨q0, hq0⟩ := Option.isSome_iff_exists.mp hs
    refine List.mem_map.mpr ⟨(q1.1, q1.2, q0.2), List.mem_filterMap.mpr ⟨q1, hq1, ?_⟩, rfl⟩
    rw [hq0]
    rfl

theorem innerJoin_map_fst_sublist (l : List (Timestamp × LodAgg))
    (a : List (Timestamp × AamAgg)) :
    ((innerJoin l a).map Prod.fst).Sublist (l.map Prod.fst) := by
  induction l with
  | nil => simp [innerJoin]
  | cons p ps ih =>
    cases hg : a.find? (fun q => q.1 == p.1) with
    | none =>
      simp only [innerJoin, List.filterMap_cons, hg, Option.map_none', List.map_cons]
      exact (ih : _).cons p.1
    | some q =>
      simp only [innerJoin, List.filterMap_cons, hg, Option.map_some', List.map_cons]
      exact (ih : _).cons₂ p.1

theorem innerJoin_mem_pairs {l : List (Timestamp × LodAgg)} {a : List (Timestamp × AamAgg)}
    {p : Timestamp × LodAgg × AamAgg} (hp : p ∈ innerJoin l a) :
    (p.1, p.2.1) ∈ l ∧ (p.1, p.2.2) ∈ a := by
  rcases List.mem_filterMap.mp hp with ⟨q1, hq1, hg⟩
  rcases Option.map_eq_some'.mp hg with ⟨q2, hq2, hq2p⟩
  have hq2a := List.mem_of_find?_eq_some hq2
  have hq2b := List.find?_some hq2
  have hq2t : q2.1 = q1.1 := beq_iff_eq.mp hq2b
  subst hq2p
  constructor
  · simpa using hq1
  · rw [← hq2t]
    simpa using hq2a

theorem load_combined_data_ok {lod_rows : List LodRaw} {dir : AamDir}
    {sy ey : Option Int} {freq : Freq} {comb : List (Timestamp × LodAgg × AamAgg)}
    (h : load_combined_data lod_rows dir sy ey freq = .ok comb) :
    ∃ l a, load_lod_data lod_rows freq = .ok l ∧
      load_aam_data dir sy ey freq = .ok a ∧ comb = innerJoin l a := by
  unfold load_combined_data at h
  cases hl : load_lod_data lod_rows freq with
  | error e =>
    rw [hl] at h
    exact Except.noConfusion h
  | ok l =>
    rw [hl] at h
    cases ha : load_aam_data dir sy ey freq with
    | error e =>
      rw [ha] at h
      exact Except.noConfusion h
    | ok a =>
      rw [ha] at h
      injection h with h
      exact ⟨l, a, rfl, rfl, h.symm⟩

theorem load_lod_pairwise {rows : List LodRaw} {freq : Freq}
    {tbl : List (Timestamp × LodAgg)} (h : load_lod_data rows freq = .ok tbl) :
    (tbl.map Prod.fst).Pairwise (fun s t => tsKey s < tsKey t) := by
  obtain ⟨pre, _, rfl⟩ := load_lod_data_ok h
  exact resampleWith_pairwise freq _ _ pre

theorem load_aam_pairwise {dir : AamDir} {sy ey : Option Int} {freq : Freq}
    {tbl : List (Timestamp × AamAgg)} (h : load_aam_data dir sy ey freq = .ok tbl) :
    (tbl.map Prod.fst).Pairwise (fun s t => tsKey s < tsKey t) := by
  obtain ⟨pre, _, rfl⟩ := load_aam_data_ok h
  exact resampleWith_pairwise freq _ _ pre

theorem filterMap_id_all_some_length (xs : List (Option ℚ))
    (h : ∀ x ∈ xs, x.isSome = true) : (xs.filterMap id).length = xs.length := by
  induction xs with
  | nil => rfl
  | cons x rest ih =>
    obtain ⟨v, hv⟩ := Option.isSome_iff_exists.mp (h x (List.mem_cons_self x rest))
    subst hv
    simp only [List.filterMap_cons, id, List.length_cons]
    rw [ih (fun x hx => h x (List.mem_cons_of_mem _ hx))]

theorem x3_sum_split (b : List AamPre)
    (hs : ∀ r ∈ b, r.Mass_Z.isSome = true ∧ r.Motion_Z.isSome = true)
    (hx : ∀ r ∈ b, r.X3_atm = optAdd r.Mass_Z r.Motion_Z) :
    ((b.map (fun r => r.X3_atm)).filterMap id).sum =
      ((b.map (fun r => r.Mass_Z)).filterMap id).sum +
        ((b.map (fun r => r.Motion_Z)).filterMap id).sum := by
  induction b with
  | nil => simp
  | cons r rest ih =>
    obtain ⟨hm, hw⟩ := hs r (List.mem_cons_self r rest)
    obtain ⟨mv, hmv⟩ := Option.isSome_iff_exists.mp hm
    obtain ⟨wv, hwv⟩ := Option.isSome_iff_exists.mp hw
    have hxr : r.X3_atm = some (mv + wv) := by
      rw [hx r (List.mem_cons_self r rest), hmv, hwv]
      rfl
    have ihr := ih (fun q hq => hs q (List.mem_cons_of_mem _ hq))
      (fun q hq => hx q (List.mem_cons_of_mem _ hq))
    simp only [List.map_cons, List.filterMap_cons, hmv, hwv, hxr, id, List.sum_cons]
    rw [ihr]
    ring

theorem x3_all_some {b : List AamPre}
    (hs : ∀ r ∈ b, r.Mass_Z.isSome = true ∧ r.Motion_Z.isSome = true)
    (hx : ∀ r ∈ b, r.X3_atm = optAdd r.Mass_Z r.Motion_Z) :
    ∀ r ∈ b, r.X3_atm.isSome = true := by
  intro r hr
  obtain ⟨mv, hmv⟩ := Option.isSome_iff_exists.mp (hs r hr).1
  obtain ⟨wv, hwv⟩ := Option.isSome_iff_exists.mp (hs r hr).2
  rw [hx r hr, hmv, hwv]
  rfl

theorem meanOpt_x3_split (b : List AamPre)
    (hs : ∀ r ∈ b, r.Mass_Z.isSome = true ∧ r.Motion_Z.isSome = true)
    (hx : ∀ r ∈ b, r.X3_atm = optAdd r.Mass_Z r.Motion_Z) :
    meanOpt (b.map (fun r => r.X3_atm)) =
      optAdd (meanOpt (b.map (fun r => r.Mass_Z))) (meanOpt (b.map (fun r => r.Motion_Z))) := by
  cases b with
  | nil => rfl
  | cons r rest =>
    have hlm := filterMap_id_all_some_length ((r :: rest).map (fun r => r.Mass_Z))
      (by
        intro x hxm
        rcases List.mem_map.mp hxm with ⟨q, hq, rfl⟩
        exact (hs q hq).1)
    have hlw := filterMap_id_all_some_length ((r :: rest).map (fun r => r.Motion_Z))
      (by
        intro x hxm
        rcases List.mem_map.mp hxm with ⟨q, hq, rfl⟩
        exact (hs q hq).2)
    have hlx := filterMap_id_all_some_length ((r :: rest).map (fun r => r.X3_atm))
      (by
        intro x hxm
        rcases List.mem_map.mp hxm with ⟨q, hq, rfl⟩
        exact x3_all_some hs hx q hq)
    rw [List.length_map] at hlm hlw hlx
    have hsum := x3_sum_split (r :: rest) hs hx
    have hmne : (((r :: rest).map (fun r => r.Mass_Z)).filterMap id).isEmpty = false := by
      rw [List.isEmpty_eq_false]
      intro hnil
      rw [hnil] at hlm
      exact absurd hlm.symm (by simp)
    have hwne : (((r :: rest).map (fun r => r.Motion_Z)).filterMap id).isEmpty = false := by
      rw [List.isEmpty_eq_false]
      intro hnil
      rw [hnil] at hlw
      exact absurd hlw.symm (by simp)
    have hxne : (((r :: rest).map (fun r => r.X3_atm)).filterMap id).isEmpty = false := by
      rw [List.isEmpty_eq_false]
      intro hnil
      rw [hnil] at hlx
      exact absurd hlx.symm (by simp)
    simp only [meanOpt, hmne, hwne, hxne, Bool.false_eq_true, if_false, optAdd]
    rw [hsum, hlm, hlw, hlx, div_add_div_same]

theorem aamConcat_mem {dir : AamDir} {sy ey : Option Int} {pre : List AamPre}
    (h : aamConcat dir sy ey = .ok pre) :
    ∀ r ∈ pre, ∃ f, f ∈ aamMatched dir ∧
      ((sy.isSome || ey.isSome) = true →
        ∃ y, extractYear f.1 = some y ∧ yearKeep sy ey y = true) ∧
      ∃ raw ∈ f.2, r.ts = ⟨raw.Year, raw.Month, raw.Day, raw.minuteOfDay⟩ := by
  obtain ⟨kept, dfs, hne, hF, hkne, hP, hpre⟩ := aamConcat_ok h
  subst hpre
  intro r hr
  rcases List.mem_map.mp hr with ⟨q, hq, rfl⟩
  rw [mem_insertionSort] at hq
  rcases List.mem_flatten.mp hq with ⟨d, hd, hqd⟩
  rcases aamParseAll_mem hP d hd with ⟨f, hf, hfd⟩
  rcases aamParseFile_mem hfd q hqd with ⟨raw, hraw, hts, _, _⟩
  by_cases hb : (sy.isSome || ey.isSome) = true
  · rw [if_pos hb] at hF
    have hmm := (filterByYear_ok_mem hF f).mp hf
    exact ⟨f, hmm.1, fun _ => hmm.2, raw, hraw, hts⟩
  · rw [if_neg hb] at hF
    injection hF with hF
    subst hF
    exact ⟨f, hf, fun hc => absurd hc hb, raw, hraw, hts⟩

theorem wLodParse_eval : lodParse wLod = .ok wLodPre := by
  norm_num [lodParse, wLod, wLodPre, mkDate, daysInMonth, isLeap, optScale, Option.map]

theorem wLodLoad_eval : load_lod_data wLod Freq.MS = .ok wLodTbl := by
  norm_num [load_lod_data, lodParse, wLod, wLodTbl, mkDate, daysInMonth, isLeap, optScale,
    Option.map, lodResample, resampleWith, monthIdx, monthsRange, freqLabel, meanOpt,
    List.foldl, List.filter, List.range_succ, List.range_zero, List.filterMap]
  simp

theorem wLodGapParse_eval : lodParse wLodGap = .ok wLodGapPre := by
  norm_num [lodParse, wLodGap, wLodGapPre, mkDate, daysInMonth, isLeap, optScale, Option.map]

theorem wLodGapLoad_eval : load_lod_data wLodGap Freq.MS = .ok wLodGapTbl := by
  have hmr : monthsRange 24000 24002 = [24000, 24001, 24002] := by
    norm_num [monthsRange, List.range_succ, List.range_zero, show Int.toNat 3 = 3 from rfl]
  norm_num [load_lod_data, lodParse, wLodGap, wLodGapTbl, mkDate, daysInMonth, isLeap, optScale,
    Option.map, lodResample, resampleWith, monthIdx, hmr, freqLabel, meanOpt,
    List.foldl, List.filter, List.filterMap]
  simp

theorem wAamConcat_eval : aamConcat wDir (some 2000) (some 2000) = .ok wAamPre := by
  rw [show aamConcat wDir (some 2000) (some 2000) =
    .ok [⟨⟨2000, 1, 1, 0⟩, some 1, some 2, optAdd (some 1) (some 2)⟩,
      ⟨⟨2000, 3, 1, 180⟩, some 3, some 5, optAdd (some 3) (some 5)⟩] from rfl]
  norm_num [optAdd, wAamPre]

theorem wAamLoad_eval : load_aam_data wDir (some 2000) (some 2000) Freq.MS = .ok wAamTbl := by
  have hmr : monthsRange 24000 24002 = [24000, 24001, 24002] := by
    norm_num [monthsRange, List.range_succ, List.range_zero, show Int.toNat 3 = 3 from rfl]
  simp only [load_aam_data, wAamConcat_eval]
  norm_num [aamResample, resampleWith, wAamPre, wAamTbl, monthIdx, hmr, freqLabel, meanOpt,
    List.foldl, List.filter, List.filterMap]
  simp

theorem wComb_eval :
    load_combined_data wLod wDir (some 2000) (some 2000) Freq.MS = .ok wCombTbl := by
  simp only [load_combined_data, wLodLoad_eval, wAamLoad_eval]
  rfl

/-- C1, counterexample: on a directory whose two files both match the AAM
filename pattern, filtering to the year range 1990–1990 removes every
candidate, and `load_aam_data` fails with a `ValueError` — not with the
`FileNotFoundError` that models the spec's NotFoundError.  This refutes the
claim that this failure is a NotFoundError. -/
theorem claim_C1_counterexample :
    aamMatched wDir ≠ [] ∧
    load_aam_data wDir (some 1990) (some 1990) Freq.MS = .error .valueError ∧
    load_aam_data wDir (some 1990) (some 1990) Freq.MS ≠ .error .fileNotFound := by
  refine ⟨by decide, rfl, ?_⟩
  intro h
  rw [show load_aam_data wDir (some 1990) (some 1990) Freq.MS =
    Except.error LoadError.valueError from rfl] at h
  injection h with h2
  exact LoadError.noConfusion h2

/-- C1, amended: for every directory in which at least one file matches the
AAM filename pattern but the year filtering with `start_year` and/or
`end_year` removes every candidate file, `load_aam_data` fails with a
`ValueError` (not a NotFoundError). -/
theorem claim_C1 (dir : AamDir) (sy ey : Option Int) (freq : Freq)
    (hne : aamMatched dir ≠ [])
    (hall : ∀ f ∈ aamMatched dir, ∃ y, extractYear f.1 = some y ∧
      yearKeep sy ey y = false) :
    load_aam_data dir sy ey freq = .error .valueError := by
  have hfil : filterByYear sy ey (aamMatched dir) = .ok [] := filterByYear_dropAll hall
  have hb : (sy.isSome || ey.isSome) = true := by
    rcases List.exists_mem_of_ne_nil _ hne with ⟨f, hf⟩
    rcases hall f hf with ⟨y, _, hk⟩
    by_contra hc
    have hnn : sy = none ∧ ey = none := by
      cases sy <;> cases ey <;> simp_all
    rcases hnn with ⟨rfl, rfl⟩
    simp [yearKeep] at hk
  have hme : (aamMatched dir).isEmpty = false := List.isEmpty_eq_false.mpr hne
  simp only [load_aam_data, aamConcat, hme, hb, Bool.false_eq_true, if_false, if_true,
    hfil, List.isEmpty_nil]

/-- C1, witness: the amended claim applied to the sample directory with the
year range 1990–1990, which keeps no file. -/
theorem claim_C1_witness :
    aamMatched wDir ≠ [] ∧
    (∀ f ∈ aamMatched wDir, ∃ y, extractYear f.1 = some y ∧
      yearKeep (some 1990) (some 1990) y = false) ∧
    load_aam_data wDir (some 1990) (some 1990) Freq.MS = .error .valueError := by
  have hall : ∀ f ∈ aamMatched wDir, ∃ y, extractYear f.1 = some y ∧
      yearKeep (some 1990) (some 1990) y = false := by
    intro f hf
    have hm : aamMatched wDir = [wFileA, wFileB] := by decide
    rw [hm] at hf
    rcases List.mem_cons.mp hf with rfl | hf2
    · exact ⟨2000, by decide, by decide⟩
    rcases List.mem_cons.mp hf2 with rfl | hf3
    · exact ⟨2001, by decide, by decide⟩
    · cases hf3
  exact ⟨by decide, hall, claim_C1 wDir (some 1990) (some 1990) Freq.MS (by decide) hall⟩

/-- C2: for every directory in which zero files match the pattern
`ESMGFZ_AAM_v1.0_03h_<YEAR>.asc.csv`, `load_aam_data` fails with the
`FileNotFoundError` that models the spec's NotFoundError, before any year
filtering. -/
theorem claim_C2 (dir : AamDir) (sy ey : Option Int) (freq : Freq)
    (h : ∀ f ∈ dir, globMatch f.1 = false) :
    load_aam_data dir sy ey freq = .error .fileNotFound := by
  have hm : aamMatched dir = [] := by
    unfold aamMatched
    rw [List.filter_eq_nil_iff.mpr (fun a ha => by simp [h a ha])]
    rfl
  simp only [load_aam_data, aamConcat, hm, List.isEmpty_nil, if_true]

/-- C2, witness: the claim applied to a directory holding only a
non-matching file. -/
theorem claim_C2_witness :
    (∀ f ∈ wBadDir, globMatch f.1 = false) ∧
    load_aam_data wBadDir none none Freq.MS = .error .fileNotFound :=
  ⟨by decide, claim_C2 wBadDir none none Freq.MS (by decide)⟩

/-- C3: in the pre-aggregation tables, every row satisfies
`LOD_ms = LOD * 1000` (in `load_lod_data`) and `X3_atm = Mass_Z + Motion_Z`
(in `load_aam_data`), both computed row-wise before resampling, with pandas
NaN propagation. -/
theorem claim_C3 :
    (∀ (rows : List LodRaw) (pre : List LodPre), lodParse rows = .ok pre →
      ∀ r ∈ pre, r.LOD_ms = optScale 1000 r.LOD) ∧
    (∀ (dir : AamDir) (sy ey : Option Int) (pre : List AamPre),
      aamConcat dir sy ey = .ok pre →
      ∀ r ∈ pre, r.X3_atm = optAdd r.Mass_Z r.Motion_Z) :=
  ⟨fun _ _ h => lodParse_lodms h, fun _ _ _ _ h => aamConcat_x3 h⟩

/-- C3, witness: both derived-field identities applied to the first rows of
the sample pre-aggregation tables. -/
theorem claim_C3_witness :
    lodParse wLod = .ok wLodPre ∧
    wLodPreHead.LOD_ms = optScale 1000 wLodPreHead.LOD ∧
    aamConcat wDir (some 2000) (some 2000) = .ok wAamPre ∧
    wAamPreHead.X3_atm = optAdd wAamPreHead.Mass_Z wAamPreHead.Motion_Z :=
  ⟨wLodParse_eval,
    claim_C3.1 wLod wLodPre wLodParse_eval wLodPreHead (by simp [wLodPre, wLodPreHead]),
    wAamConcat_eval,
    claim_C3.2 wDir (some 2000) (some 2000) wAamPre wAamConcat_eval wAamPreHead
      (by simp [wAamPre, wAamPreHead])⟩

/-- C4: when both loaders succeed, the combined table's index is the
set-intersection of the two resampled indices (a period present in only one
source is dropped), each combined row's five columns
`LOD_ms, LOD, Mass_Z, Motion_Z, X3_atm` are drawn from the corresponding
rows of the two tables, and the row count is at most the minimum of the two
loaders' row counts. -/
theorem claim_C4 (lod_rows : List LodRaw) (dir : AamDir) (sy ey : Option Int)
    (freq : Freq) (l : List (Timestamp × LodAgg)) (a : List (Timestamp × AamAgg))
    (comb : List (Timestamp × LodAgg × AamAgg))
    (hl : load_lod_data lod_rows freq = .ok l)
    (ha : load_aam_data dir sy ey freq = .ok a)
    (hc : load_combined_data lod_rows dir sy ey freq = .ok comb) :
    (∀ t, t ∈ comb.map Prod.fst ↔ t ∈ l.map Prod.fst ∧ t ∈ a.map Prod.fst) ∧
    comb.length ≤ min l.length a.length ∧
    (∀ p ∈ comb, (p.1, p.2.1) ∈ l ∧ (p.1, p.2.2) ∈ a) := by
  obtain ⟨l2, a2, hl2, ha2, hcomb⟩ := load_combined_data_ok hc
  rw [hl] at hl2
  injection hl2 with he1
  subst he1
  rw [ha] at ha2
  injection ha2 with he2
  subst he2
  subst hcomb
  have h1 : (innerJoin l a).length ≤ l.length := by
    unfold innerJoin
    exact List.length_filterMap_le _ _
  have hsub := innerJoin_map_fst_sublist l a
  have hpw := List.Pairwise.sublist hsub (load_lod_pairwise hl)
  have hnd := pairwise_key_nodup hpw
  have hsubset : (innerJoin l a).map Prod.fst ⊆ a.map Prod.fst :=
    fun t ht => (innerJoin_mem_fst.mp ht).2
  have h3 := (hnd.subperm hsubset).length_le
  rw [List.length_map, List.length_map] at h3
  exact ⟨fun t => innerJoin_mem_fst, le_min h1 h3, fun p hp => innerJoin_mem_pairs hp⟩

/-- C4, witness: the intersection, column and row-count conclusions applied
to the sample tables; only January 2000 is present in both monthly tables. -/
theorem claim_C4_witness :
    load_lod_data wLod Freq.MS = .ok wLodTbl ∧
    load_aam_data wDir (some 2000) (some 2000) Freq.MS = .ok wAamTbl ∧
    load_combined_data wLod wDir (some 2000) (some 2000) Freq.MS = .ok wCombTbl ∧
    ((⟨2000, 1, 1, 0⟩ : Timestamp) ∈ wCombTbl.map Prod.fst ↔
      (⟨2000, 1, 1, 0⟩ : Timestamp) ∈ wLodTbl.map Prod.fst ∧
      (⟨2000, 1, 1, 0⟩ : Timestamp) ∈ wAamTbl.map Prod.fst) ∧
    wCombTbl.length ≤ min wLodTbl.length wAamTbl.length ∧
    ((wCombHead.1, wCombHead.2.1) ∈ wLodTbl ∧ (wCombHead.1, wCombHead.2.2) ∈ wAamTbl) := by
  have h := claim_C4 wLod wDir (some 2000) (some 2000) Freq.MS wLodTbl wAamTbl wCombTbl
    wLodLoad_eval wAamLoad_eval wComb_eval
  exact ⟨wLodLoad_eval, wAamLoad_eval, wComb_eval, h.1 ⟨2000, 1, 1, 0⟩, h.2.1,
    h.2.2 wCombHead (by simp [wCombTbl, wCombHead])⟩

/-- C5: for every successful call, the timestamp index of the table
returned by `load_lod_data`, `load_aam_data` and `load_combined_data` is
strictly ascending chronologically (pairwise increasing `tsKey`) and has no
duplicate timestamps. -/
theorem claim_C5 :
    (∀ (rows : List LodRaw) (freq : Freq) (tbl : List (Timestamp × LodAgg)),
      load_lod_data rows freq = .ok tbl →
      (tbl.map Prod.fst).Pairwise (fun s t => tsKey s < tsKey t) ∧
      (tbl.map Prod.fst).Nodup) ∧
    (∀ (dir : AamDir) (sy ey : Option Int) (freq : Freq)
      (tbl : List (Timestamp × AamAgg)),
      load_aam_data dir sy ey freq = .ok tbl →
      (tbl.map Prod.fst).Pairwise (fun s t => tsKey s < tsKey t) ∧
      (tbl.map Prod.fst).Nodup) ∧
    (∀ (lod_rows : List LodRaw) (dir : AamDir) (sy ey : Option Int) (freq : Freq)
      (tbl : List (Timestamp × LodAgg × AamAgg)),
      load_combined_data lod_rows dir sy ey freq = .ok tbl →
      (tbl.map Prod.fst).Pairwise (fun s t => tsKey s < tsKey t) ∧
      (tbl.map Prod.fst).Nodup) := by
  refine ⟨?_, ?_, ?_⟩
  · intro rows freq tbl h
    have hp := load_lod_pairwise h
    exact ⟨hp, pairwise_key_nodup hp⟩
  · intro dir sy ey freq tbl h
    have hp := load_aam_pairwise h
    exact ⟨hp, pairwise_key_nodup hp⟩
  · intro lod_rows dir sy ey freq tbl h
    obtain ⟨l, a, hl, ha, rfl⟩ := load_combined_data_ok h
    have hp := List.Pairwise.sublist (innerJoin_map_fst_sublist l a) (load_lod_pairwise hl)
    exact ⟨hp, pairwise_key_nodup hp⟩

/-- C5, witness: the monotone-index conclusions applied to the three sample
tables. -/
theorem claim_C5_witness :
    (load_lod_data wLod Freq.MS = .ok wLodTbl ∧
      (wLodTbl.map Prod.fst).Pairwise (fun s t => tsKey s < tsKey t) ∧
      (wLodTbl.map Prod.fst).Nodup) ∧
    (load_aam_data wDir (some 2000) (some 2000) Freq.MS = .ok wAamTbl ∧
      (wAamTbl.map Prod.fst).Pairwise (fun s t => tsKey s < tsKey t) ∧
      (wAamTbl.map Prod.fst).Nodup) ∧
    (load_combined_data wLod wDir (some 2000) (some 2000) Freq.MS = .ok wCombTbl ∧
      (wCombTbl.map Prod.fst).Pairwise (fun s t => tsKey s < tsKey t) ∧
      (wCombTbl.map Prod.fst).Nodup) := by
  have h1 := claim_C5.1 wLod Freq.MS wLodTbl wLodLoad_eval
  have h2 := claim_C5.2.1 wDir (some 2000) (some 2000) Freq.MS wAamTbl wAamLoad_eval
  have h3 := claim_C5.2.2 wLod wDir (some 2000) (some 2000) Freq.MS wCombTbl wComb_eval
  exact ⟨⟨wLodLoad_eval, h1.1, h1.2⟩, ⟨wAamLoad_eval, h2.1, h2.2⟩, ⟨wComb_eval, h3.1, h3.2⟩⟩

/-- C6: every resampling period lying inside a loader's output range (some
raw month at or below it, some at or above it) that has zero contributing
raw rows appears in the output as a row whose aggregated values are all the
missing-value marker `none` — not zero and not an error. -/
theorem claim_C6 :
    (∀ (rows : List LodRaw) (freq : Freq) (pre : List LodPre)
      (tbl : List (Timestamp × LodAgg)) (m : Int),
      lodParse rows = .ok pre → load_lod_data rows freq = .ok tbl →
      (∃ r ∈ pre, monthIdx r.ts ≤ m) → (∃ r ∈ pre, m ≤ monthIdx r.ts) →
      (∀ r ∈ pre, monthIdx r.ts ≠ m) →
      (freqLabel freq m, (⟨none, none⟩ : LodAgg)) ∈ tbl) ∧
    (∀ (dir : AamDir) (sy ey : Option Int) (freq : Freq) (pre : List AamPre)
      (tbl : List (Timestamp × AamAgg)) (m : Int),
      aamConcat dir sy ey = .ok pre → load_aam_data dir sy ey freq = .ok tbl →
      (∃ r ∈ pre, monthIdx r.ts ≤ m) → (∃ r ∈ pre, m ≤ monthIdx r.ts) →
      (∀ r ∈ pre, monthIdx r.ts ≠ m) →
      (freqLabel freq m, (⟨none, none, none⟩ : AamAgg)) ∈ tbl) := by
  constructor
  · intro rows freq pre tbl m hparse hload h1 h2 h0
    obtain ⟨pre2, hparse2, rfl⟩ := load_lod_data_ok hload
    rw [hparse] at hparse2
    injection hparse2 with he
    subst he
    have hfil : pre.filter (fun x => monthIdx x.ts == m) = [] := by
      rw [List.filter_eq_nil_iff]
      intro a ha hc
      exact h0 a ha (beq_iff_eq.mp hc)
    have hmem := @mem_resampleWith LodPre LodAgg freq (fun r => r.ts)
      (fun b => (⟨meanOpt (b.map (fun r => r.LOD_ms)),
        meanOpt (b.map (fun r => r.LOD))⟩ : LodAgg)) pre m h1 h2
    rw [hfil] at hmem
    exact hmem
  · intro dir sy ey freq pre tbl m hcon hload h1 h2 h0
    obtain ⟨pre2, hcon2, rfl⟩ := load_aam_data_ok hload
    rw [hcon] at hcon2
    injection hcon2 with he
    subst he
    have hfil : pre.filter (fun x => monthIdx x.ts == m) = [] := by
      rw [List.filter_eq_nil_iff]
      intro a ha hc
      exact h0 a ha (beq_iff_eq.mp hc)
    have hmem := @mem_resampleWith AamPre AamAgg freq (fun r => r.ts)
      (fun b => (⟨meanOpt (b.map (fun r => r.Mass_Z)), meanOpt (b.map (fun r => r.Motion_Z)),
        meanOpt (b.map (fun r => r.X3_atm))⟩ : AamAgg)) pre m h1 h2
    rw [hfil] at hmem
    exact hmem

/-- C6, witness: for both loaders, the empty period February 2000 (month
index 24001) of the gapped sample inputs appears in the output with all
values missing. -/
theorem claim_C6_witness :
    lodParse wLodGap = .ok wLodGapPre ∧
    load_lod_data wLodGap Freq.MS = .ok wLodGapTbl ∧
    (∃ r ∈ wLodGapPre, monthIdx r.ts ≤ 24001) ∧
    (∃ r ∈ wLodGapPre, 24001 ≤ monthIdx r.ts) ∧
    (∀ r ∈ wLodGapPre, monthIdx r.ts ≠ 24001) ∧
    (freqLabel Freq.MS 24001, (⟨none, none⟩ : LodAgg)) ∈ wLodGapTbl ∧
    aamConcat wDir (some 2000) (some 2000) = .ok wAamPre ∧
    load_aam_data wDir (some 2000) (some 2000) Freq.MS = .ok wAamTbl ∧
    (∃ r ∈ wAamPre, monthIdx r.ts ≤ 24001) ∧
    (∃ r ∈ wAamPre, 24001 ≤ monthIdx r.ts) ∧
    (∀ r ∈ wAamPre, monthIdx r.ts ≠ 24001) ∧
    (freqLabel Freq.MS 24001, (⟨none, none, none⟩ : AamAgg)) ∈ wAamTbl := by
  refine ⟨wLodGapParse_eval, wLodGapLoad_eval, by decide, by decide, by decide, ?_,
    wAamConcat_eval, wAamLoad_eval, by decide, by decide, by decide, ?_⟩
  · exact claim_C6.1 wLodGap Freq.MS wLodGapPre wLodGapTbl 24001 wLodGapParse_eval
      wLodGapLoad_eval (by decide) (by decide) (by decide)
  · exact claim_C6.2 wDir (some 2000) (some 2000) Freq.MS wAamPre wAamTbl 24001
      wAamConcat_eval wAamLoad_eval (by decide) (by decide) (by decide)

/-- C7: (a) a discovered file survives the year filter exactly when its
filename-embedded year lies in `[start_year, end_year]`, each bound
inclusive and unbounded when omitted; (b) when `start_year = end_year = Y`
and each matching file's rows carry the filename-embedded year, every row
of the concatenated pre-aggregation table has Year `Y`. -/
theorem claim_C7 :
    (∀ (dir : AamDir) (sy ey : Option Int) (kept : List (String × List AamRaw)),
      filterByYear sy ey (aamMatched dir) = .ok kept →
      ∀ f, f ∈ kept ↔ f ∈ aamMatched dir ∧
        ∃ y, extractYear f.1 = some y ∧
          (∀ s, sy = some s → s ≤ y) ∧ (∀ e, ey = some e → y ≤ e)) ∧
    (∀ (dir : AamDir) (Y : Int) (pre : List AamPre),
      (∀ g ∈ dir, globMatch g.1 = true → ∀ r ∈ g.2, extractYear g.1 = some r.Year) →
      aamConcat dir (some Y) (some Y) = .ok pre →
      ∀ r ∈ pre, r.ts.year = Y) := by
  constructor
  · intro dir sy ey kept h f
    rw [filterByYear_ok_mem h f]
    constructor
    · rintro ⟨hf, y, hy, hk⟩
      exact ⟨hf, y, hy, (yearKeep_iff.mp hk).1, (yearKeep_iff.mp hk).2⟩
    · rintro ⟨hf, y, hy, hs, he⟩
      exact ⟨hf, y, hy, yearKeep_iff.mpr ⟨hs, he⟩⟩
  · intro dir Y pre hwf h r hr
    rcases aamConcat_mem h r hr with ⟨f, hfm, hfy, raw, hraw, hts⟩
    rcases hfy rfl with ⟨y, hy, hk⟩
    have hglob : globMatch f.1 = true := (mem_aamMatched.mp hfm).2
    have hfd : f ∈ dir := (mem_aamMatched.mp hfm).1
    have hYear : extractYear f.1 = some raw.Year := hwf f hfd hglob raw hraw
    rw [hy] at hYear
    injection hYear with hYear
    have hk2 := yearKeep_iff.mp hk
    have hy1 : Y ≤ y := hk2.1 Y rfl
    have hy2 : y ≤ Y := hk2.2 Y rfl
    rw [hts]
    show raw.Year = Y
    omega

/-- C7, witness: filtering the sample directory to 2000–2000 keeps exactly
the 2000 file; the kept-iff conclusion instantiated at the dropped 2001
file, and the row-year conclusion at the first concatenated row. -/
theorem claim_C7_witness :
    filterByYear (some 2000) (some 2000) (aamMatched wDir) = .ok wKept ∧
    (wFileB ∈ wKept ↔ wFileB ∈ aamMatched wDir ∧
      ∃ y, extractYear wFileB.1 = some y ∧
        (∀ s, (some 2000 : Option Int) = some s → s ≤ y) ∧
        (∀ e, (some 2000 : Option Int) = some e → y ≤ e)) ∧
    (∀ g ∈ wDir, globMatch g.1 = true → ∀ r ∈ g.2, extractYear g.1 = some r.Year) ∧
    aamConcat wDir (some 2000) (some 2000) = .ok wAamPre ∧
    wAamPreHead.ts.year = 2000 := by
  refine ⟨rfl, (claim_C7.1 wDir (some 2000) (some 2000) wKept rfl) wFileB, by decide,
    wAamConcat_eval, ?_⟩
  exact claim_C7.2 wDir 2000 wAamPre (by decide) wAamConcat_eval wAamPreHead
    (by simp [wAamPre, wAamPreHead])

/-- C8: `load_combined_data` is exactly the sequential composition of
`load_lod_data` applied to the LOD file with the given `resample_freq` only
(no year bounds reach it) and `load_aam_data` applied with the same
`resample_freq` plus the year bounds, their results joined; each loader
failure propagates unchanged. -/
theorem claim_C8 (lod_rows : List LodRaw) (dir : AamDir) (sy ey : Option Int)
    (freq : Freq) :
    load_combined_data lod_rows dir sy ey freq =
      Except.bind (load_lod_data lod_rows freq)
        (fun df_lod => Except.map (fun df_aam => innerJoin df_lod df_aam)
          (load_aam_data dir sy ey freq)) := by
  unfold load_combined_data
  cases load_lod_data lod_rows freq with
  | error e => rfl
  | ok l =>
    cases load_aam_data dir sy ey freq with
    | error e => rfl
    | ok a => rfl

/-- C9: on an LOD input of exactly 3 well-formed daily rows in January 2000
with LOD values 0.0010 s, 0.0012 s, 0.0008 s, monthly month-start
resampling returns exactly one row, indexed at 2000-01-01, with
`LOD_ms = 1` (the arithmetic mean of the three values times 1000). -/
theorem claim_C9 :
    load_lod_data wLod Freq.MS =
      .ok [(⟨2000, 1, 1, 0⟩, ⟨some 1, some (1/1000)⟩)] :=
  wLodLoad_eval

/-- C10: in the output of `load_aam_data`, for every period whose
contributing raw rows have no missing `Mass_Z` or `Motion_Z` values, the
aggregated `X3_atm` equals the aggregated `Mass_Z` plus the aggregated
`Motion_Z` (the row-wise sum commutes with the per-period mean). -/
theorem claim_C10 (dir : AamDir) (sy ey : Option Int) (freq : Freq)
    (pre : List AamPre) (tbl : List (Timestamp × AamAgg))
    (hcon : aamConcat dir sy ey = .ok pre)
    (hload : load_aam_data dir sy ey freq = .ok tbl) :
    ∀ p ∈ tbl, (∀ r ∈ pre, monthIdx r.ts = monthIdx p.1 →
      r.Mass_Z.isSome = true ∧ r.Motion_Z.isSome = true) →
      p.2.X3_atm = optAdd p.2.Mass_Z p.2.Motion_Z := by
  intro p hp hall
  obtain ⟨pre2, hcon2, rfl⟩ := load_aam_data_ok hload
  rw [hcon] at hcon2
  injection hcon2 with he
  subst he
  have hp2 : p ∈ resampleWith freq (fun r => r.ts)
      (fun b => (⟨meanOpt (b.map (fun r => r.Mass_Z)), meanOpt (b.map (fun r => r.Motion_Z)),
        meanOpt (b.map (fun r => r.X3_atm))⟩ : AamAgg)) pre := hp
  rcases resampleWith_mem_elim hp2 with ⟨m, hpm, hpv⟩
  have hm : monthIdx p.1 = m := by
    rw [hpm]
    exact monthIdx_freqLabel freq m
  have hs : ∀ r ∈ pre.filter (fun x => monthIdx x.ts == m),
      r.Mass_Z.isSome = true ∧ r.Motion_Z.isSome = true := by
    intro r hr
    have hb := List.of_mem_filter hr
    have hrm : monthIdx r.ts = m := beq_iff_eq.mp hb
    exact hall r (List.mem_of_mem_filter hr) (by rw [hrm, hm])
  have hx : ∀ r ∈ pre.filter (fun x => monthIdx x.ts == m),
      r.X3_atm = optAdd r.Mass_Z r.Motion_Z :=
    fun r hr => aamConcat_x3 hcon r (List.mem_of_mem_filter hr)
  rw [hpv]
  exact meanOpt_x3_split _ hs hx

/-- C10, witness: the commutation conclusion applied to the January 2000
row of the sample monthly AAM table. -/
theorem claim_C10_witness :
    aamConcat wDir (some 2000) (some 2000) = .ok wAamPre ∧
    load_aam_data wDir (some 2000) (some 2000) Freq.MS = .ok wAamTbl ∧
    (∀ r ∈ wAamPre, monthIdx r.ts = monthIdx wAamTblHead.1 →
      r.Mass_Z.isSome = true ∧ r.Motion_Z.isSome = true) ∧
    wAamTblHead.2.X3_atm = optAdd wAamTblHead.2.Mass_Z wAamTblHead.2.Motion_Z := by
  refine ⟨wAamConcat_eval, wAamLoad_eval, by decide, ?_⟩
  exact claim_C10 wDir (some 2000) (some 2000) Freq.MS wAamPre wAamTbl wAamConcat_eval
    wAamLoad_eval wAamTblHead (by simp [wAamTbl, wAamTblHead]) (by decide)

end EcdoAnalysis
